import Mathlib

/-!
Verification development for the ffmpeg-auto plan-and-schedule engine.

The TypeScript sources are shallowly embedded: pure functions become Lean
functions, promise-returning fallible code becomes `Except String`, and the
host-language `eval` used by the snippet engine (`new Function(...)`) is
abstracted as an oracle (`JsEval`), with a concrete instance covering the
dot-navigation expressions that appear in the built-in shortcut table.
JavaScript numbers are modelled as `Rat`; NaN/Infinity propagation of
degenerate inputs is excluded by explicit hypotheses where relevant.
-/

namespace FfmpegAuto

/-! ### JS string primitives

Character-level models of the regex replacements performed by
`src/src/snippet.ts` (second revision).  Scanning functions take an explicit
fuel argument; every recursive call consumes at least one character, so fuel
equal to the input length never runs out.
-/

/-- Case-insensitive character comparison (the `i` regex flag). -/
def ciEq (a b : Char) : Bool :=
  a.toLower == b.toLower

/-- Match `pat` case-insensitively as a prefix of `l`; return the matched
characters (original case, as captured by the regex group) and the rest. -/
def matchLitCI : List Char → List Char → Option (List Char × List Char)
  | [], l => some ([], l)
  | _ :: _, [] => none
  | p :: ps, c :: cs =>
      if ciEq p c then (matchLitCI ps cs).map (fun pr => (c :: pr.1, pr.2)) else none

/-- `String.prototype.split` on a non-empty separator: accumulate characters
until the separator is a prefix, then emit a chunk.  Fuel is the input
length (each step consumes at least one character). -/
def splitOnListGo (sep : List Char) : Nat → List Char → List Char → List (List Char)
  | 0, acc, l => [acc.reverse ++ l]
  | _ + 1, acc, [] => [acc.reverse]
  | fuel + 1, acc, c :: rest =>
      if sep.isPrefixOf (c :: rest) then
        acc.reverse :: splitOnListGo sep fuel [] ((c :: rest).drop sep.length)
      else splitOnListGo sep fuel (c :: acc) rest

/-- `s.split(sep)` for a non-empty separator. -/
def jsSplit (s sep : String) : List String :=
  (splitOnListGo sep.toList s.toList.length [] s.toList).map List.asString

/-- JS substring test, as in the regex test for the `-map` token inside
stream parameters (used to detect duplicated streams). -/
def containsSub (s pat : String) : Bool :=
  (jsSplit s pat).length > 1

/-- One match attempt of `(true|false)}` right after an opening brace:
the alternation tries `true` first, as the regex engine does. -/
def matchBoolAt (l : List Char) : Option (List Char × List Char) :=
  let tryWord := fun (w : String) =>
    match matchLitCI w.toList l with
    | some (m, '}' :: rest) => some (m, rest)
    | _ => none
  (tryWord "true").orElse (fun _ => tryWord "false")

/-- Global replacement `snippet.replace(/{(true|false)}/gi, $1)`. -/
def replaceBoolsGo : Nat → List Char → List Char
  | 0, l => l
  | _ + 1, [] => []
  | fuel + 1, c :: rest =>
      if c == '{' then
        match matchBoolAt rest with
        | some (m, rest1) => m ++ replaceBoolsGo fuel rest1
        | none => c :: replaceBoolsGo fuel rest
      else c :: replaceBoolsGo fuel rest

/-- `BooleanSnippetResolver.resolve`: strip braces around boolean literals. -/
def BooleanSnippetResolver.resolve (snippet : String) : String :=
  (replaceBoolsGo snippet.toList.length snippet.toList).asString

/-- One match attempt of the number pattern right after an opening brace.
The regex is `{(\d+(?:.\d+)?)}` with an unescaped dot, so the optional group
is one arbitrary character followed by more digits; the greedy engine tries
the optional group before the bare closing brace. -/
def matchNumAt (l : List Char) : Option (List Char × List Char) :=
  let ds := l.takeWhile Char.isDigit
  if ds.isEmpty then none
  else
    let r1 := l.drop ds.length
    let withGroup :=
      match r1 with
      | c :: r2 =>
          let ds2 := r2.takeWhile Char.isDigit
          if ds2.isEmpty then none
          else
            match r2.drop ds2.length with
            | '}' :: r3 => some (ds ++ c :: ds2, r3)
            | _ => none
      | [] => none
    withGroup.orElse (fun _ =>
      match r1 with
      | '}' :: r3 => some (ds, r3)
      | _ => none)

/-- Global replacement of the number-literal pattern. -/
def replaceNumsGo : Nat → List Char → List Char
  | 0, l => l
  | _ + 1, [] => []
  | fuel + 1, c :: rest =>
      if c == '{' then
        match matchNumAt rest with
        | some (m, rest1) => m ++ replaceNumsGo fuel rest1
        | none => c :: replaceNumsGo fuel rest
      else c :: replaceNumsGo fuel rest

/-- `NumberSnippetResolver.resolve`: strip braces around number literals. -/
def NumberSnippetResolver.resolve (snippet : String) : String :=
  (replaceNumsGo snippet.toList.length snippet.toList).asString

/-! ### Function snippets: `REGEX_EXECUTABLE = /{{((?:(?!{{).)*)}}/gi` -/

/-- Characters before the next occurrence of two consecutive opening braces
(the `(?!{{)` lookahead bound on the body). -/
def takeUntilDB : List Char → List Char
  | [] => []
  | '{' :: '{' :: _ => []
  | c :: rest => c :: takeUntilDB rest

/-- Split a segment at its last occurrence of two consecutive closing braces
(the greedy body backtracks to the last closer), returning the body and the
characters after the closer. -/
def splitLastClose : List Char → Option (List Char × List Char)
  | [] => none
  | c :: rest =>
      match splitLastClose rest with
      | some (b, r) => some (c :: b, r)
      | none =>
          match c, rest with
          | '}', '}' :: r2 => some ([], r2)
          | _, _ => none

/-- Given the characters following a double opening brace, find the body of a
function snippet and the remainder after its closer, if the pattern matches. -/
def findFnBody (rest : List Char) : Option (List Char × List Char) :=
  match splitLastClose (takeUntilDB rest) with
  | some (body, _) => some (body, rest.drop (body.length + 2))
  | none => none

/-- Does the string contain a function snippet (`!!s.match(REGEX_EXECUTABLE)`)? -/
def hasFnMatchGo : Nat → List Char → Bool
  | 0, _ => false
  | _ + 1, [] => false
  | fuel + 1, '{' :: '{' :: rest =>
      (findFnBody rest).isSome || hasFnMatchGo fuel ('{' :: rest)
  | fuel + 1, _ :: rest => hasFnMatchGo fuel rest

/-- `!!s.match(REGEX_EXECUTABLE)`. -/
def hasFunctionSnippet (s : String) : Bool :=
  hasFnMatchGo s.toList.length s.toList

/-! ### Data model (`src/src/media.ts`, profile model from its use sites) -/

/-- `Path` from `media.ts`: a file location kept relative to a base directory. -/
structure Path where
  parent : String
  filename : String
  extension : String
deriving Repr, DecidableEq

/-- Probe metadata of one input stream.  Opaque passthrough fields that no
embedded operation consults (tags, disposition, frame rates, ...) are not
modelled. -/
structure InputStream where
  index : Nat
  codec_name : String
  codec_type : String
deriving Repr, DecidableEq

/-- Container-level probe metadata; only `duration` is consulted by the
embedded operations.  JS numbers are modelled as `Rat`. -/
structure Format where
  duration : Rat := 0
deriving Repr, DecidableEq

/-- A chapter as returned by the probe (plus the `number` field injected by
the chapter builders; `none` models the field being absent). -/
structure Chapter where
  id : Int := 0
  time_base : String
  start : Rat
  start_time : Rat
  «end» : Rat
  end_time : Rat
  number : Option Nat := none
deriving Repr, DecidableEq

/-- `InputMedia`: the probed input file.  `chapters` is optional in the
probe data; `none` models the JS value being `undefined`. -/
structure InputMedia where
  id : Nat
  path : Path
  params : List String := []
  streams : List InputStream := []
  format : Format := {}
  chapters : Option (List Chapter) := none
deriving Repr, DecidableEq

/-- `OutputStream`: one stream of a planned output file. -/
structure OutputStream where
  index : Nat
  source : InputStream
  params : List String
deriving Repr, DecidableEq

/-- `OutputMedia`: one planned output file.  `path` is assigned by the
builders (`none` until then, as in the JS constructor). -/
structure OutputMedia where
  id : Nat
  source : InputMedia
  path : Option Path := none
  params : List String := []
  streams : List OutputStream := []
deriving Repr, DecidableEq

/-- The `on` field of a mapping or mapping option: absent, a single string
(`none`/`chapters`/`all`/a codec type) or an array of codec types. -/
inductive OnSelector where
  | undef
  | one (s : String)
  | many (ss : List String)
deriving Repr, DecidableEq

/-- A mapping option (`Option` in `profile.ts`; renamed here to avoid the
Lean builtin).  `when` is the snippet sequence of the predicate (an absent
predicate is the empty sequence, which compiles to the constant true). -/
structure MappingOption where
  «on» : OnSelector := .undef
  when : List String := []
  params : List String := []
  exclude : Bool := false
deriving Repr, DecidableEq

/-- A profile mapping. -/
structure Mapping where
  id : String := ""
  «on» : OnSelector := .undef
  when : List String := []
  params : List String := []
  output : String := ""
  format : Option String := none
  options : List MappingOption := []
deriving Repr, DecidableEq

/-- `InputConfig`.  `include`/`exclude` are the regex pattern sources as
configured (strings at runtime). -/
structure InputConfig where
  directory : String
  «include» : Option String := none
  exclude : Option String := none
  params : List String := []
  deleteAfterProcess : Bool := false
deriving Repr, DecidableEq

/-- `OutputConfig`. -/
structure OutputConfig where
  directory : String
  defaultExtension : String := "mkv"
  writeLog : Bool := false
  mappings : List Mapping := []
deriving Repr, DecidableEq

/-- `Profile`. -/
structure Profile where
  id : String
  input : InputConfig
  output : OutputConfig
deriving Repr, DecidableEq

/-- `SnippetContext` from `snippet.ts`: the bindings visible to a snippet;
optional slots model keys absent from the JS context object. -/
structure SnippetContext where
  profile : Profile
  input : InputMedia
  output : Option OutputMedia := none
  stream : Option InputStream := none
  outputStream : Option OutputStream := none
  chapter : Option Chapter := none
deriving Repr, DecidableEq

/-- Oracle for the host-language evaluation performed by `parseFunction`
(`new Function(...Object.keys(context), body)` in `snippet.ts`): `fn` models
evaluation of an expression body against a context (including the implicit
`return` insertion, the thrown-error wrapping and the null/undefined
rejection, hence `Except`); `pred` models `parseFunction<boolean>` for
predicate snippets whose evaluation succeeds. -/
structure JsEval where
  fn : String → SnippetContext → Except String String
  pred : String → SnippetContext → Bool

/-- `body.trim()`: strip whitespace from both ends. -/
def jsTrim (s : String) : String :=
  ((s.toList.dropWhile Char.isWhitespace).reverse.dropWhile Char.isWhitespace).reverse.asString

/-- `parseFunction` applied to a snippet body: the body is trimmed, and the
host evaluation (with the implicit `return`, error wrapping and null check)
is delegated to the oracle. -/
def parseFunctionEval (je : JsEval) (body : String) (context : SnippetContext) :
    Except String String :=
  je.fn (jsTrim body) context

/-- `parsePredicate`: an absent or empty predicate is the constant true; a
sequence is the conjunction of its non-empty elements. -/
def parsePredicate (je : JsEval) (exec : List String) (context : SnippetContext) : Bool :=
  (exec.filter (fun body => body ≠ "")).all (fun body => je.pred body context)

/-- `FunctionSnippetResolver.resolve`: replace every function snippet by the
(stringified) result of evaluating its body against the context. -/
def resolveFunctionGo (je : JsEval) (context : SnippetContext) :
    Nat → List Char → Except String (List Char)
  | 0, l => pure l
  | _ + 1, [] => pure []
  | fuel + 1, '{' :: '{' :: rest =>
      match findFnBody rest with
      | some (body, rest1) => do
          let value ← parseFunctionEval je body.asString context
          let tail ← resolveFunctionGo je context fuel rest1
          pure (value.toList ++ tail)
      | none => do
          let tail ← resolveFunctionGo je context fuel ('{' :: rest)
          pure ('{' :: tail)
  | fuel + 1, c :: rest => do
      let tail ← resolveFunctionGo je context fuel rest
      pure (c :: tail)

/-- `FunctionSnippetResolver.resolve` on strings. -/
def FunctionSnippetResolver.resolve (je : JsEval) (snippet : String)
    (context : SnippetContext) : Except String String :=
  (resolveFunctionGo je context snippet.toList.length snippet.toList).map List.asString

/-! ### Shortcut snippets

The shortcut regex is built as an opening brace, an optional separator
(dot, underscore or hyphen, captured), the shortcut name (case-insensitive),
an optional captured separator and a closing brace.
-/

/-- Is the character one of the separator class? -/
def isSepChar (c : Char) : Bool :=
  c == '.' || c == '_' || c == '-'

/-- One match attempt of a shortcut pattern; `l` is the text following the
opening brace.  Shortcut names begin with a letter, so the optional separator
groups are deterministic.  Returns both captured separators and the rest. -/
def matchShortcutAt (name : List Char) (l : List Char) :
    Option (Option Char × Option Char × List Char) :=
  let sep1l : Option Char × List Char :=
    match l with
    | c :: rest => if isSepChar c then (some c, rest) else (none, l)
    | [] => (none, l)
  match matchLitCI name sep1l.2 with
  | none => none
  | some (_, l2) =>
      match l2 with
      | c :: rest =>
          if c == '}' then some (sep1l.1, none, rest)
          else if isSepChar c then
            match rest with
            | '}' :: r2 => some (sep1l.1, some c, r2)
            | _ => none
          else none
      | [] => none

/-- `result.match(regexp)` for the shortcut pattern. -/
def hasShortcutMatchGo (name : List Char) : Nat → List Char → Bool
  | 0, _ => false
  | _ + 1, [] => false
  | fuel + 1, c :: rest =>
      if c == '{' then
        (matchShortcutAt name rest).isSome || hasShortcutMatchGo name fuel rest
      else hasShortcutMatchGo name fuel rest

/-- Does the snippet contain a shortcut occurrence? -/
def hasShortcutMatch (name : String) (snippet : String) : Bool :=
  hasShortcutMatchGo name.toList snippet.toList.length snippet.toList

/-- The characters emitted for one shortcut match: the JS replacement string
is the first separator, the computed replacement and the second separator
when the replacement is non-empty (a falsy empty replacement drops the
separators, and a non-participating group substitutes nothing). -/
def shortcutEmit (repl : List Char) (sep1 sep2 : Option Char) : List Char :=
  if repl.isEmpty then []
  else sep1.toList ++ repl ++ sep2.toList

/-- Global replacement of a shortcut pattern by an already-computed
replacement. -/
def replaceShortcutGo (name repl : List Char) : Nat → List Char → List Char
  | 0, l => l
  | _ + 1, [] => []
  | fuel + 1, c :: rest =>
      if c == '{' then
        match matchShortcutAt name rest with
        | some (sep1, sep2, rest1) =>
            shortcutEmit repl sep1 sep2 ++ replaceShortcutGo name repl fuel rest1
        | none => c :: replaceShortcutGo name repl fuel rest
      else c :: replaceShortcutGo name repl fuel rest

/-- String-level global shortcut replacement. -/
def replaceShortcut (name repl snippet : String) : String :=
  (replaceShortcutGo name.toList repl.toList snippet.toList.length snippet.toList).asString

/-- A shortcut table entry. -/
structure SnippetShortcut where
  snippet : String
  replacement : String
deriving Repr, DecidableEq

/-- The built-in shortcut table of `snippet.ts` (second revision), with the
exact replacement snippets of the source. -/
def shortcuts : List SnippetShortcut :=
  [ ⟨"iid", "{{input.id}}:{{stream.index}}"⟩,
    ⟨"oid", "{{outputStream.index}}"⟩,
    ⟨"fn", "{{input.path.filename}}"⟩,
    ⟨"lng",
      "\x7b\x7bstream.tags && stream.tags.language ? stream.tags.language : 'und' \x7d\x7d"⟩,
    ⟨"label",
      "\x7b\x7b(stream.disposition && stream.disposition.forced === 1) || (stream.tags && stream.tags.title && !!stream.tags.title.match(/forced/i)) ? 'forced' : (stream.disposition && stream.disposition.hearing_impaired === 1) || (stream.tags && stream.tags.title && !!stream.tags.title.match(/hi|sdh/i)) ? 'sdh' : '' \x7d\x7d"⟩ ]

/-- `ShortcutSnippetResolver.resolveShortcut`: when the snippet contains the
shortcut, compute the replacement (resolving function snippets inside it
first, against the same context) and replace every occurrence. -/
def ShortcutSnippetResolver.resolveShortcut (je : JsEval) (snippet : String)
    (context : SnippetContext) (shortcut : SnippetShortcut) : Except String String :=
  if hasShortcutMatch shortcut.snippet snippet then do
    let replacement ←
      if hasFunctionSnippet shortcut.replacement then
        FunctionSnippetResolver.resolve je shortcut.replacement context
      else pure shortcut.replacement
    pure (replaceShortcut shortcut.snippet replacement snippet)
  else pure snippet

/-- `ShortcutSnippetResolver.resolve`: fold the shortcut table in declaration
order. -/
def ShortcutSnippetResolver.resolve (je : JsEval) (snippet : String)
    (context : SnippetContext) : Except String String :=
  shortcuts.foldlM (fun result s => ShortcutSnippetResolver.resolveShortcut je result context s)
    snippet

/-! ### Final check and the resolver pipeline -/

/-- Does the text still contain a residual brace pattern
(an opening brace, brace-free characters, a closing brace)? -/
def hasResidualGo : List Char → Bool → Bool
  | [], _ => false
  | '{' :: rest, _ => hasResidualGo rest true
  | '}' :: rest, opened => opened || hasResidualGo rest false
  | _ :: rest, opened => hasResidualGo rest opened

/-- `DefaultSnippetResolver.checkComplete`: fail when a brace pattern remains. -/
def DefaultSnippetResolver.checkComplete (result : String) : Except String String :=
  if hasResidualGo result.toList false then .error "Unknown pattern(s)" else .ok result

/-- `DefaultSnippetResolver.resolve` (second revision of `snippet.ts`): join a
snippet sequence with spaces, then run the boolean, number, shortcut and
function resolvers in order and check completeness.  A single snippet is the
one-element sequence. -/
def DefaultSnippetResolver.resolve (je : JsEval) (snippets : List String)
    (context : SnippetContext) : Except String String := do
  let snippet := String.intercalate " " snippets
  let r1 := BooleanSnippetResolver.resolve snippet
  let r2 := NumberSnippetResolver.resolve r1
  let r3 ← ShortcutSnippetResolver.resolve je r2 context
  let r4 ← FunctionSnippetResolver.resolve je r3 context
  DefaultSnippetResolver.checkComplete r4

/-- The concrete evaluation oracle: the dot-navigation expressions used by
the built-in shortcut table, evaluated exactly as the host would (member
access on the context slots, number results stringified by the replacement).
Accessing a slot that is absent from the context throws in the host
(ReferenceError or TypeError inside `parseFunction`'s catch), hence `.error`;
any expression outside this fragment is likewise rejected by the oracle.
Predicate snippets are not exercised concretely by this development. -/
def jsEvalDefault : JsEval where
  fn := fun body context =>
    if body = "input.id" then .ok (toString context.input.id)
    else if body = "input.path.filename" then .ok context.input.path.filename
    else if body = "stream.index" then
      match context.stream with
      | some s => .ok (toString s.index)
      | none => .error ("Failed to resolve \x7b return " ++ body ++ " \x7d")
    else if body = "outputStream.index" then
      match context.outputStream with
      | some os => .ok (toString os.index)
      | none => .error ("Failed to resolve \x7b return " ++ body ++ " \x7d")
    else .error ("Failed to resolve \x7b return " ++ body ++ " \x7d")
  pred := fun _ _ => true

/-! ### List combinators

Translations of the recurring JS iteration shapes: `map` with a mutable
output counter followed by `reduce(concat)` becomes `threadMap` (and its
`Except` variant), and fallible `map` becomes `mapME`.
-/

/-- Sequential fan-out with a threaded counter. -/
def threadMap (f : α → Nat → List β) : List α → Nat → List β
  | [], _ => []
  | a :: as, n =>
      let out := f a n
      out ++ threadMap f as (n + out.length)

/-- Fallible sequential fan-out with a threaded counter. -/
def threadMapME (f : α → Nat → Except ε (List β)) : List α → Nat → Except ε (List β)
  | [], _ => pure []
  | a :: as, n => do
      let out ← f a n
      let rest ← threadMapME f as (n + out.length)
      pure (out ++ rest)

/-- Fallible map. -/
def mapME (f : α → Except ε β) : List α → Except ε (List β)
  | [] => pure []
  | a :: as => do
      let b ← f a
      let bs ← mapME f as
      pure (b :: bs)

/-! ### Output media builder (`src/src/profile.mapper.ts`, first revision) -/

/-- The stream dispatch test shared by option selection and the many-mapping
filter: `on` is `all`, equals the codec type, or is an array containing it. -/
def onMatchesStream («on» : OnSelector) (codecType : String) : Bool :=
  match «on» with
  | .undef => false
  | .one s => s == "all" || s == codecType
  | .many ss => ss.contains codecType

/-- JS truthiness of the `on` field (absent or the empty string is falsy). -/
def onIsSet : OnSelector → Bool
  | .undef => false
  | .one s => s ≠ ""
  | .many _ => true

/-- Is the `on` field the string literal `none`? -/
def onIsNoneStr : OnSelector → Bool
  | .one s => s == "none"
  | _ => false

/-- The options applicable to one input stream: those whose `on` matches the
stream's codec type and whose `when` predicate holds with the stream bound. -/
def relOptions (je : JsEval) (context : SnippetContext) (tasks : List MappingOption)
    (stream : InputStream) : List MappingOption :=
  (tasks.filter (fun o => onMatchesStream o.«on» stream.codec_type)).filter
    (fun o => parsePredicate je o.when {context with stream := some stream})

/-- One step of the option loop inside `OutputStreamBuilder.build`: options
whose params contain `-map` become separate duplicated streams; the rest
accumulate into the stream's own params. -/
def osbStep (stream : InputStream) (acc : List OutputStream × List String × Nat)
    (o : MappingOption) : List OutputStream × List String × Nat :=
  if o.params.any (fun p => containsSub p "-map") then
    (acc.1 ++ [⟨acc.2.2, stream, o.params⟩], acc.2.1, acc.2.2 + 1)
  else
    (acc.1, acc.2.1 ++ o.params, acc.2.2)

/-- `OutputStreamBuilder.build`: build the output streams derived from one
input stream.  A matched `exclude` option omits the stream entirely; with no
matched option the stream is copied by default; the stream itself is always
mapped with `-map {iid}` in front of its accumulated params. -/
def OutputStreamBuilder.build (je : JsEval) (context : SnippetContext)
    (stream : InputStream) (tasks : List MappingOption) (currentId : Nat) :
    List OutputStream :=
  let rel := relOptions je context tasks stream
  if rel.any (fun o => o.exclude) then []
  else
    let acc :=
      if rel.isEmpty then (([] : List OutputStream), ["-c:{oid} copy"], currentId)
      else rel.foldl (osbStep stream) ([], [], currentId)
    acc.1 ++ [⟨acc.2.2, stream, "-map {iid}" :: acc.2.1⟩]

/-- `SingleMappingBuilder.getTasks`: the options with a set, non-`none`
`on` field. -/
def getTasks (mapping : Mapping) : List MappingOption :=
  mapping.options.filter (fun o => onIsSet o.«on» && !onIsNoneStr o.«on»)

/-- `SingleMappingBuilder.getGlobalParameters`: the mapping params followed by
the params of each whole-output option whose predicate holds. -/
def getGlobalParameters (je : JsEval) (mapping : Mapping) (context : SnippetContext) :
    List String :=
  mapping.params ++
    (((mapping.options.filter (fun o => !onIsSet o.«on» || onIsNoneStr o.«on»)).filter
        (fun o => parsePredicate je o.when context)).map (fun o => o.params)).flatten

/-- `SingleMappingBuilder.createStreams`: fan the input streams out through
the output stream builder, threading the stream counter. -/
def SingleMappingBuilder.createStreams (je : JsEval) (mapping : Mapping)
    (context : SnippetContext) : List OutputStream :=
  threadMap (fun s n => OutputStreamBuilder.build je context s (getTasks mapping) n)
    context.input.streams 0

/-- `SingleMappingBuilder.build`: one output from the whole input.  The
output context mirrors the JS aliasing: by the time the path is resolved the
output object already carries its params and streams. -/
def SingleMappingBuilder.build (je : JsEval) (mapping : Mapping)
    (context : SnippetContext) (currentId : Nat) : Except String (List OutputMedia) :=
  if !mapping.when.isEmpty && !parsePredicate je mapping.when context then pure []
  else
    let output0 : OutputMedia := { id := currentId, source := context.input }
    let outputContext := {context with output := some output0}
    let globalParams := getGlobalParameters je mapping outputContext
    let streams := SingleMappingBuilder.createStreams je mapping context
    if streams.isEmpty then pure []
    else do
      let output1 : OutputMedia := {output0 with params := globalParams, streams := streams}
      let filename ← DefaultSnippetResolver.resolve je [mapping.output]
        {context with output := some output1}
      let path : Path :=
        ⟨context.input.path.parent, filename,
          mapping.format.getD context.profile.output.defaultExtension⟩
      pure [{output1 with path := some path}]

/-- The per-stream half of `resolveOutputParameters`: resolve one output
stream's params with the output, the source stream and the output stream
bound. -/
def resolveStreamParams (je : JsEval) (context : SnippetContext) (o1 : OutputMedia)
    (os : OutputStream) : Except String OutputStream := do
  let ps ← mapME (fun p => DefaultSnippetResolver.resolve je [p]
    {context with output := some o1, stream := some os.source, outputStream := some os})
    os.params
  pure {os with params := ps}

/-- `resolveOutputParameters`: resolve the output-level params with the output
bound, then each stream's params with the source stream and output stream
bound. -/
def resolveOutputParameters (je : JsEval) (o : OutputMedia) (context : SnippetContext) :
    Except String OutputMedia := do
  let params ← mapME
    (fun p => DefaultSnippetResolver.resolve je [p] {context with output := some o}) o.params
  let o1 : OutputMedia := {o with params := params}
  let streams ← mapME (resolveStreamParams je context o1) o1.streams
  pure {o1 with streams := streams}

/-- The dummy chapter appended when the last chapter ends before the
container: `createChapter` of the second revision, also inlined by the first
revision.  The time base string is split on the slash and both parts parsed
as integers; the new `end` is the duration divided by their ratio.  NaN and
Infinity propagation of malformed or zero time bases is not modelled (the
division falls back to Lean's zero-valued division there). -/
def parseIntJs (s : String) : Option Int :=
  let l := s.toList.dropWhile Char.isWhitespace
  let signed : Bool × List Char :=
    match l with
    | '-' :: rest => (true, rest)
    | '+' :: rest => (false, rest)
    | _ => (false, l)
  let ds := signed.2.takeWhile Char.isDigit
  if ds.isEmpty then none
  else
    let n : Int := ds.foldl (fun n c => n * 10 + (c.toNat - '0'.toNat : Int)) 0
    some (if signed.1 then -n else n)

/-- `ChapterMappingBuilder.createChapter`. -/
def createChapter (previousChapter : Chapter) (duration : Rat) : Chapter :=
  let timeBaseFraction := (jsSplit previousChapter.time_base "/").map parseIntJs
  let num : Option Int := (timeBaseFraction.get? 0).bind id
  let den : Option Int := (timeBaseFraction.get? 1).bind id
  let timeBase : Rat := ((num.getD 0 : Int) : Rat) / ((den.getD 0 : Int) : Rat)
  { id := 0,
    time_base := previousChapter.time_base,
    start := previousChapter.«end»,
    start_time := previousChapter.end_time,
    «end» := duration / timeBase,
    end_time := duration }

/-- `ChapterMappingBuilder.getChapters` (first revision): spread the chapter
list (the spread throws a TypeError when `chapters` is undefined), return
empty when there are none, and append the dummy chapter when the last one
ends before the container's duration. -/
def ChapterMappingBuilder.getChapters (context : SnippetContext) :
    Except String (List Chapter) :=
  match context.input.chapters with
  | none => .error "TypeError: context.input.chapters is not iterable"
  | some chapters =>
      .ok (match chapters.getLast? with
        | none => []
        | some lastChapter =>
            if lastChapter.end_time ≠ context.input.format.duration then
              chapters ++ [createChapter lastChapter context.input.format.duration]
            else chapters)

/-- `ChapterMappingBuilder.build` (first revision): narrow the context per
chapter (injecting the 1-based `number`), delegate to the single-mapping
builder and resolve the produced outputs against the chapter context. -/
def ChapterMappingBuilder.build (je : JsEval) (mapping : Mapping)
    (context : SnippetContext) (currentId : Nat) : Except String (List OutputMedia) := do
  let chapters ← ChapterMappingBuilder.getChapters context
  let localContexts := chapters.enum.map
    (fun ic => {context with chapter := some {ic.2 with number := some (ic.1 + 1)}})
  threadMapME (fun localContext n => do
      let output ← SingleMappingBuilder.build je mapping localContext n
      mapME (fun o => resolveOutputParameters je o localContext) output)
    localContexts currentId

/-- The codec-to-extension table. -/
def extensionsByCodec : List (String × String) :=
  [("subrip", "srt")]

/-- `resolveExtension`: the first matching table entry, or the codec name
itself. -/
def resolveExtension (codecName : String) : String :=
  let possibleExtensions := extensionsByCodec.filter (fun ec => containsSub codecName ec.1)
  match possibleExtensions with
  | e :: _ => e.2
  | [] => codecName

/-- `ManyMappingBuilder.buildOutput`: one output with a single mapped stream
for one selected input stream. -/
def ManyMappingBuilder.buildOutput (je : JsEval) (mapping : Mapping)
    (context : SnippetContext) (stream : InputStream) (currentId : Nat) :
    Except String OutputMedia := do
  let output0 : OutputMedia :=
    { id := currentId, source := context.input,
      streams := [⟨0, stream, "-map {iid}" :: mapping.params⟩] }
  let filename ← DefaultSnippetResolver.resolve je [mapping.output]
    {context with output := some output0, stream := some stream}
  let path : Path :=
    ⟨context.input.path.parent, filename,
      mapping.format.getD (resolveExtension stream.codec_name)⟩
  pure {output0 with path := some path}

/-- `ManyMappingBuilder.build`: one output per input stream matching the
mapping's `on` selector and `when` predicate. -/
def ManyMappingBuilder.build (je : JsEval) (mapping : Mapping)
    (context : SnippetContext) (outputsCount : Nat) : Except String (List OutputMedia) :=
  let selected :=
    (context.input.streams.filter (fun s => onMatchesStream mapping.«on» s.codec_type)).filter
      (fun s => parsePredicate je mapping.when {context with stream := some s})
  threadMapME (fun s n => do
      let o ← ManyMappingBuilder.buildOutput je mapping context s n
      pure [o])
    selected outputsCount

/-- `createBuilder` dispatch combined with the chosen builder's `build`. -/
def buildForMapping (je : JsEval) (mapping : Mapping) (context : SnippetContext)
    (currentId : Nat) : Except String (List OutputMedia) :=
  if !onIsSet mapping.«on» || onIsNoneStr mapping.«on» then
    SingleMappingBuilder.build je mapping context currentId
  else if mapping.«on» == .one "chapters" then
    ChapterMappingBuilder.build je mapping context currentId
  else
    ManyMappingBuilder.build je mapping context currentId

/-- `OutputMediaBuilder.build`: expand every mapping with a threaded output
counter, resolve each output's parameters, and reject an empty plan. -/
def OutputMediaBuilder.build (je : JsEval) (profile : Profile) (input : InputMedia) :
    Except String (List OutputMedia) := do
  let context : SnippetContext := { profile := profile, input := input }
  let built ← threadMapME (fun m n => buildForMapping je m context n)
    profile.output.mappings 0
  let outputs ← mapME (fun o => resolveOutputParameters je o {context with output := some o})
    built
  if outputs.isEmpty then .error "No output: skip" else pure outputs

/-! ### Chapter normalization, second revision of `profile.mapper.ts`
(`ChapterMappingBuilder.getChapters` / `createChapter`): identical dummy
chapter, plus the 1-based numbering of the final list. -/

namespace Mapper2

/-- The numbering loop: `chapters.forEach(c => c.number = chapterId++)`. -/
def numberChapters (chapters : List FfmpegAuto.Chapter) : List FfmpegAuto.Chapter :=
  chapters.enum.map (fun ic => {ic.2 with number := some (ic.1 + 1)})

/-- `getChapters` of the second revision: spread (throws on an undefined
chapters field), empty guard, dummy-chapter normalization, then numbering. -/
def getChapters (context : SnippetContext) : Except String (List FfmpegAuto.Chapter) :=
  match context.input.chapters with
  | none => .error "TypeError: context.input.chapters is not iterable"
  | some chapters =>
      .ok (match chapters.getLast? with
        | none => []
        | some lastChapter =>
            numberChapters
              (if lastChapter.end_time ≠ context.input.format.duration then
                chapters ++ [createChapter lastChapter context.input.format.duration]
              else chapters))

end Mapper2

/-! ### Watcher (`src/unnamed/part_008`) -/

/-- Events emitted by the watcher to its observers. -/
inductive WatcherEvent where
  | schedule (file : String)
  | cancel (file : String)
deriving Repr, DecidableEq

/-- The watcher's mutable state: the pending file list and whether the
stabilization timer is armed. -/
structure WatcherState where
  pendingFiles : List String := []
  pendingTimer : Bool := false
deriving Repr, DecidableEq

/-- `updateTimeout`: clear any armed timer, and arm a new one exactly when
files are pending. -/
def Watcher.updateTimeout (s : WatcherState) : WatcherState :=
  {s with pendingTimer := !s.pendingFiles.isEmpty}

/-- `onAdd`: append the file and restart the timer. -/
def Watcher.onAdd (s : WatcherState) (file : String) : WatcherState :=
  Watcher.updateTimeout {s with pendingFiles := s.pendingFiles ++ [file]}

/-- `onRemove`: when the file is pending, `splice(index)` — which removes the
element at `index` and every element after it — and restart the timer; the
`cancel` event is emitted to observers in every case. -/
def Watcher.onRemove (s : WatcherState) (file : String) :
    WatcherState × List WatcherEvent :=
  match s.pendingFiles.findIdx? (fun f => f == file) with
  | some index =>
      (Watcher.updateTimeout {s with pendingFiles := s.pendingFiles.take index},
       [WatcherEvent.cancel file])
  | none => (s, [WatcherEvent.cancel file])

/-- JS truthiness of the value a `Promise<void>` resolves with: the promise
resolves with `undefined`, which is falsy. -/
def jsTruthyVoid (_ : Unit) : Bool :=
  false

/-- `Watcher.filter`: `Promise.all` over the async filter chain (the first
rejection rejects the whole), then `results.every(value => value)` over the
resolved void values. -/
def Watcher.filter (filters : List (String → Except String Unit)) (file : String) :
    Except String Bool := do
  let results ← mapME (fun t => t file) filters
  pure (results.all jsTruthyVoid)

/-- Lexicographic comparison of character lists by code point (the default
JS sort comparator compares UTF-16 code units; these agree on the basic
plane). -/
def ltCharList : List Char → List Char → Bool
  | [], [] => false
  | [], _ :: _ => true
  | _ :: _, [] => false
  | a :: as, b :: bs =>
      if a.toNat < b.toNat then true
      else if b.toNat < a.toNat then false
      else ltCharList as bs

/-- Stable ascending insertion used to model `Array.prototype.sort()`
(default lexicographic comparator). -/
def sortInsert (x : String) : List String → List String
  | [] => [x]
  | y :: ys => if ltCharList x.toList y.toList then x :: y :: ys else y :: sortInsert x ys

/-- `this.pendingFiles.sort()`. -/
def jsSortStrings : List String → List String
  | [] => []
  | x :: xs => sortInsert x (jsSortStrings xs)

/-- `notify`: snapshot the pending files sorted ascending, emit `schedule`
for every file whose filter chain reports inclusion (rejections and excluded
files are only logged), then reset the pending list and the timer. -/
def Watcher.notify (filters : List (String → Except String Unit)) (s : WatcherState) :
    WatcherState × List WatcherEvent :=
  let sortedFiles := jsSortStrings s.pendingFiles
  let events := sortedFiles.foldl (fun acc file =>
      match Watcher.filter filters file with
      | .ok true => acc ++ [WatcherEvent.schedule file]
      | .ok false => acc
      | .error _ => acc) []
  (⟨[], false⟩, events)

/-! ### Scheduler (`src/unnamed/part_000`) -/

/-- The scheduler's state: the id counter, the id-to-file map (in insertion
order, as JS `Map` iteration), the id recorded at the last `task_started`,
the FIFO queue of not-yet-started ids, and the in-flight task. -/
structure SchedulerState where
  taskCount : Nat := 0
  tasks : List (Nat × String) := []
  currentTask : Nat := 0
  queue : List Nat := []
  running : Option Nat := none
deriving Repr, DecidableEq

/-- The scheduler's observable transitions: `schedule`/`cancel` calls and the
queue's `task_started` / `task_finish` / `task_failed` events. -/
inductive SchedulerEvent where
  | schedule (file : String)
  | start
  | finish
  | fail
  | cancel (file : String)
deriving Repr, DecidableEq

/-- `createId`: assign the next id and record the id-to-file mapping. -/
def Scheduler.createId (s : SchedulerState) (file : String) : SchedulerState × Nat :=
  let id := s.taskCount + 1
  ({s with taskCount := id, tasks := s.tasks ++ [(id, file)]}, id)

/-- `findId`: the first mapped id whose file matches (JS returns -1,
modelled as `none`, when there is none). -/
def Scheduler.findId (s : SchedulerState) (file : String) : Option Nat :=
  (s.tasks.find? (fun kv => kv.2 == file)).map (fun kv => kv.1)

/-- One scheduler transition.  `schedule` pushes onto the single-flight FIFO
queue; `start` (fired only when nothing runs) pops the head and records it as
the current task; `finish`/`fail` clear the in-flight task's map entry;
`cancel` removes the located id from the queue and the map only when it is
strictly greater than the current task's id. -/
def Scheduler.step (s : SchedulerState) : SchedulerEvent → SchedulerState
  | .schedule file =>
      let s1 := Scheduler.createId s file
      {s1.1 with queue := s1.1.queue ++ [s1.2]}
  | .start =>
      match s.running, s.queue with
      | none, id :: rest => {s with queue := rest, currentTask := id, running := some id}
      | _, _ => s
  | .finish =>
      match s.running with
      | some id => {s with tasks := s.tasks.filter (fun kv => kv.1 ≠ id), running := none}
      | none => s
  | .fail =>
      match s.running with
      | some id => {s with tasks := s.tasks.filter (fun kv => kv.1 ≠ id), running := none}
      | none => s
  | .cancel file =>
      match Scheduler.findId s file with
      | some id =>
          if s.currentTask < id then
            {s with queue := s.queue.erase id,
                    tasks := s.tasks.filter (fun kv => kv.1 ≠ id)}
          else s
      | none => s

/-- The states reachable from the initial scheduler state. -/
inductive Scheduler.Reachable : SchedulerState → Prop
  | init : Scheduler.Reachable {}
  | step (e : SchedulerEvent) {s : SchedulerState} :
      Scheduler.Reachable s → Scheduler.Reachable (Scheduler.step s e)

/-! ### Watcher filters (`src/src/watcher.filter.ts`) -/

/-- `ExcludeListFilter.test`: `fs.stat` on the exclude list rejects (with the
filesystem error) when the file does not exist, so a missing list propagates
an error; otherwise the list is split on newlines and the file is rejected
when some line equals the path exactly as it was passed in.  The JS guard for
a falsy `stat` is unreachable and therefore absent here. -/
def ExcludeListFilter.test (excludeList : Option String) (file : String) :
    Except String Unit :=
  match excludeList with
  | none => .error "ENOENT: no such file or directory"
  | some content =>
      if ((jsSplit content "\n").filter (fun l => l == file)).length > 0 then
        .error ("'" ++ file ++ "' has already been processed")
      else .ok ()

/-- The basename of a POSIX path. -/
def basenameOf (file : String) : String :=
  ((jsSplit file "/").getLast?).getD file

/-- The index of the last dot of a character list. -/
def lastDotIdx (l : List Char) : Option Nat :=
  ((l.enum.filter (fun ic => ic.2 == '.')).getLast?).map (fun ic => ic.1)

/-- `path.parse(file).ext.replace(^dot, empty)`: the extension of the file's
basename without its leading dot (empty for dotfiles and extensionless
names). -/
def extOf (file : String) : String :=
  let base := basenameOf file
  match lastDotIdx base.toList with
  | none => ""
  | some 0 => ""
  | some i => (base.toList.drop (i + 1)).asString

/-- The pattern string built by the filter around a configured source:
the template anchors the whole extension. -/
def anchorPattern (p : String) : String :=
  "^(?:" ++ p ++ ")$"

/-- `ExtensionFilter.test`, parametrized by the JS regex engine `rm`
(`rm pattern str` models `!!str.match(new RegExp(pattern))`).  The
configured `include`/`exclude` sources take part only when truthy, and the
two sides are combined with JS `&&`/`||` exactly as in the source:
include-match OR not-exclude-match. -/
def ExtensionFilter.test (rm : String → String → Bool)
    («include» exclude : Option String) (file : String) : Except String Unit :=
  let extension := extOf file
  let includeOk :=
    match «include» with
    | some i => decide (i ≠ "") && rm (anchorPattern i) extension
    | none => false
  let excludeOk :=
    match exclude with
    | some e => decide (e ≠ "") && !rm (anchorPattern e) extension
    | none => false
  if includeOk || excludeOk then .ok ()
  else .error ("'" ++ file ++ "' is excluded (or not included) in the 'profile.input' configuration")

/-! ### The value classification of the spec's cast step

The specification describes a final cast of the resolved string to a typed
value.  No such step exists in the source; the classification is defined here
from the spec's words only, to be compared with what the code returns.
-/

/-- A typed resolution result as the specification describes it. -/
inductive ResolvedValue where
  | boolVal (b : Bool)
  | intVal (n : Nat)
  | floatVal (q : Rat)
  | strVal (s : String)
deriving Repr, DecidableEq

/-- Digits to a natural number. -/
def digitsToNat (l : List Char) : Nat :=
  l.foldl (fun n c => n * 10 + (c.toNat - 48)) 0

/-- Modelled from the spec: the cast step of §4.1
(cast the final string to bool, int or float when the whole string matches
the literal boolean pattern, the all-digits pattern or the digits-dot-digits
pattern respectively; otherwise return it as a string).  This step is absent
from `src/src/snippet.ts`, whose `resolve` returns the string unchanged. -/
def specCastResolved (s : String) : ResolvedValue :=
  if s = "true" then .boolVal true
  else if s = "false" then .boolVal false
  else if !s.toList.isEmpty && s.toList.all Char.isDigit then .intVal (digitsToNat s.toList)
  else
    match jsSplit s "." with
    | [a, b] =>
        if !a.toList.isEmpty && a.toList.all Char.isDigit
            && !b.toList.isEmpty && b.toList.all Char.isDigit then
          .floatVal ((digitsToNat a.toList : Rat) + (digitsToNat b.toList : Rat) / ((10 : Rat) ^ b.length))
        else .strVal s
    | _ => .strVal s

/-! ### Concrete fixtures (scenario A of the specification) -/

/-- The video stream of the scenario-A input. -/
def streamA0 : InputStream :=
  ⟨0, "h264", "video"⟩

/-- The audio stream of the scenario-A input. -/
def streamA1 : InputStream :=
  ⟨1, "aac", "audio"⟩

/-- The scenario-A probed input: `film.mp4` with a video and an audio
stream. -/
def inputA : InputMedia :=
  { id := 0, path := ⟨"", "film", "mp4"⟩, streams := [streamA0, streamA1],
    format := ⟨1200⟩ }

/-- The scenario-A single mapping. -/
def mappingA : Mapping :=
  { id := "m1", output := "{fn}", format := some "mkv" }

/-- The scenario-A profile. -/
def profileA : Profile :=
  ⟨"test", { directory := "/in" }, { directory := "/out", mappings := [mappingA] }⟩

/-- The plan scenario A expects: one `film.mkv` with both streams copied. -/
def outputA : OutputMedia :=
  { id := 0, source := inputA, path := some ⟨"", "film", "mkv"⟩, params := [],
    streams := [⟨0, streamA0, ["-map 0:0", "-c:0 copy"]⟩,
                ⟨1, streamA1, ["-map 0:1", "-c:1 copy"]⟩] }

/-- The root context of scenario A. -/
def ctxA : SnippetContext :=
  { profile := profileA, input := inputA }

/-! ### Claim theorems -/

/-- C2 (code divergence): when the stabilization timer fires, the claim says
`schedule` is emitted for exactly the files passing the whole filter chain.
In the code, each `AsyncFileFilter.test` returns a `Promise<void>`, so the
values collected by `Promise.all` are all `undefined`, and
`results.every(value => value)` is false whenever at least one filter is
configured; `schedule` is therefore never emitted.  Here a pending list of
two files, with a chain of three filters that all pass, yields inclusion
`false` and no event at all — the state is still reset. -/
theorem notify_never_schedules :
    Watcher.filter [fun _ => .ok (), fun _ => .ok (), fun _ => .ok ()] "a.mkv" = .ok false
    ∧ Watcher.notify [fun _ => .ok (), fun _ => .ok (), fun _ => .ok ()]
        ⟨["b.mkv", "a.mkv"], true⟩ = (⟨[], false⟩, []) :=
  ⟨rfl, rfl⟩

/-- C10 (code divergence): the claim says the remove handler drops exactly
the removed file, leaving later entries intact, and restarts the timer.  The
code calls `splice(index)` without a delete count, which removes the file and
every entry after it; with the list emptied the timer is cleared rather than
restarted.  The unconditional `cancel` emission does hold, also for a file
that was never pending. -/
theorem on_remove_splices_tail :
    Watcher.onRemove ⟨["a.mkv", "b.mkv", "c.mkv"], true⟩ "a.mkv"
      = (⟨[], false⟩, [WatcherEvent.cancel "a.mkv"])
    ∧ Watcher.onRemove ⟨["x.mkv"], true⟩ "y.mkv"
      = (⟨["x.mkv"], true⟩, [WatcherEvent.cancel "y.mkv"]) :=
  ⟨rfl, rfl⟩

/-- C9 (code divergence): the claim says a missing (undefined) or empty
chapters list makes the chapter mapping builder warn and return no outputs
without failing.  The empty list does take that path, but an undefined
chapters field throws a TypeError in the array spread before the emptiness
guard (whose falsy-chapters half is therefore dead code), so the builder
fails instead. -/
theorem chapter_missing_chapters_throws :
    Mapper2.getChapters { profile := profileA, input := {inputA with chapters := none} }
      = .error "TypeError: context.input.chapters is not iterable"
    ∧ Mapper2.getChapters { profile := profileA, input := {inputA with chapters := some []} }
      = .ok [] :=
  ⟨rfl, rfl⟩

/-- C4 counterexample: the claim says the resolver casts the resolved string,
so that resolving the number literal yields the integer 42.  The code's
`resolve` returns the resolved string itself: the braces are stripped but the
result stays the string `42`, which is not the integer value the spec's cast
(`specCastResolved`) would produce. -/
theorem resolver_cast_counterexample :
    DefaultSnippetResolver.resolve jsEvalDefault ["{42}"] ctxA = .ok "42"
    ∧ specCastResolved "42" = ResolvedValue.intVal 42
    ∧ ResolvedValue.strVal "42" ≠ ResolvedValue.intVal 42 :=
  ⟨rfl, by decide, by decide⟩

/-- C4 (amended): for every context, the resolver strips the braces from
boolean and number literals but performs no cast — the results are the
strings `true`, `42` and `3.5`. -/
theorem resolver_literal_strings (context : SnippetContext) :
    DefaultSnippetResolver.resolve jsEvalDefault ["{true}"] context = .ok "true"
    ∧ DefaultSnippetResolver.resolve jsEvalDefault ["{42}"] context = .ok "42"
    ∧ DefaultSnippetResolver.resolve jsEvalDefault ["{3.5}"] context = .ok "3.5" :=
  ⟨rfl, rfl, rfl⟩

/-- C7 counterexample: the claim says the filter rejects exactly the files
whose input-root-relative path is listed, and passes everything when the
exclude list is missing.  The code compares list lines with the path string
exactly as passed (the worker appends absolute paths), so a relative line
does not reject the corresponding absolute path; and a missing exclude list
makes `fs.stat` reject, which propagates as a rejection of the file instead
of a pass (the in-code falsy-stat guard is unreachable). -/
theorem exclude_list_counterexample :
    ExcludeListFilter.test (some "sub/film.mp4") "/in/sub/film.mp4" = .ok ()
    ∧ ExcludeListFilter.test none "/in/a.mkv" = .error "ENOENT: no such file or directory" :=
  ⟨rfl, rfl⟩

/-- A list's filter for equality with a value is non-trivial exactly when the
value is a member. -/
theorem filter_eq_length_pos (l : List String) (x : String) :
    ((l.filter (fun y => y == x)).length > 0) ↔ x ∈ l := by
  constructor
  · intro h
    obtain ⟨a, ha⟩ := List.exists_mem_of_length_pos h
    obtain ⟨hmem, heq⟩ := List.mem_filter.mp ha
    have : a = x := by simpa using heq
    exact this ▸ hmem
  · intro h
    have hmem : x ∈ l.filter (fun y => y == x) := List.mem_filter.mpr ⟨h, by simp⟩
    exact List.length_pos.mpr (List.ne_nil_of_mem hmem)

/-- C7 (amended): with an existing exclude list the filter passes a file iff
no line equals the path exactly as it was passed to the filter; with a
missing exclude list the stat error propagates and every file is rejected. -/
theorem exclude_list_exact_match :
    (∀ content file, ExcludeListFilter.test (some content) file = .ok ()
        ↔ file ∉ jsSplit content "\n")
    ∧ (∀ file, ExcludeListFilter.test none file
        = .error "ENOENT: no such file or directory") := by
  constructor
  · intro content file
    have hred : ExcludeListFilter.test (some content) file
        = if ((jsSplit content "\n").filter (fun l => l == file)).length > 0 then
            .error ("'" ++ file ++ "' has already been processed")
          else .ok () := rfl
    rw [hred]
    by_cases hmem : file ∈ jsSplit content "\n"
    · rw [if_pos ((filter_eq_length_pos _ _).mpr hmem)]
      simp [hmem]
    · rw [if_neg (fun hpos => hmem ((filter_eq_length_pos _ _).mp hpos))]
      simp [hmem]
  · intro file
    rfl

/-- C6: the ExtensionFilter combines the configured regexes as an inclusive
union — with both set, a file passes iff its dot-stripped extension matches
`include` or does not match `exclude`; with only one set, that side alone
decides.  The regex engine is an arbitrary oracle `rm`. -/
theorem extension_filter_union (rm : String → String → Bool) (inc exc : String)
    (hinc : inc ≠ "") (hexc : exc ≠ "") (file : String) :
    (ExtensionFilter.test rm (some inc) (some exc) file = .ok ()
      ↔ (rm (anchorPattern inc) (extOf file) = true
          ∨ rm (anchorPattern exc) (extOf file) = false))
    ∧ (ExtensionFilter.test rm (some inc) none file = .ok ()
      ↔ rm (anchorPattern inc) (extOf file) = true)
    ∧ (ExtensionFilter.test rm none (some exc) file = .ok ()
      ↔ rm (anchorPattern exc) (extOf file) = false) := by
  refine ⟨?_, ?_, ?_⟩ <;>
    cases h1 : rm (anchorPattern inc) (extOf file) <;>
      cases h2 : rm (anchorPattern exc) (extOf file) <;>
        simp [ExtensionFilter.test, hinc, hexc, h1, h2]

/-- C6 witness: a concrete engine matching only the `mkv` extension pattern,
an include of `mkv`, an exclude of `tmp`, and the file `/in/a.mkv`: the
include side matches, so the filter passes. -/
theorem extension_filter_union_witness :
    ExtensionFilter.test (fun p e => p == anchorPattern "mkv" && e == "mkv")
      (some "mkv") (some "tmp") "/in/a.mkv" = .ok () := by
  have h := extension_filter_union (fun p e => p == anchorPattern "mkv" && e == "mkv")
    "mkv" "tmp" (by decide) (by decide) "/in/a.mkv"
  exact h.1.mpr (Or.inl (by decide))

/-- The two chapters of the concrete normalization scenario: time base
`1/1000`, the second ending at 20 seconds in a 25-second container. -/
def chA1 : Chapter :=
  { time_base := "1/1000", start := 0, start_time := 0, «end» := 10000, end_time := 10 }

/-- The second chapter of the concrete normalization scenario. -/
def chA2 : Chapter :=
  { time_base := "1/1000", start := 10000, start_time := 10, «end» := 20000, end_time := 20 }

/-- A context whose input carries the two chapters and a 25-second
duration. -/
def ctxChapters : SnippetContext :=
  { profile := profileA,
    input := {inputA with chapters := some [chA1, chA2], format := ⟨25⟩} }

/-- C5: when the last chapter's `end_time` differs from the container's
duration, exactly one synthetic chapter is appended: its `start`/`start_time`
are the last chapter's `end`/`end_time`, its `end` is the duration divided by
the rational `num/den` parsed from the chapter's `time_base` string (stated
as `duration * den / num`), and its `end_time` is the duration; when they
already agree nothing is appended; either way the final list is numbered
1 to n.  The hypotheses pin the parsed time base to a finite non-zero
rational, the domain on which the `Rat` model coincides with JS number
arithmetic. -/
theorem chapter_normalization (context : SnippetContext) (cs : List Chapter) (lc : Chapter)
    (num den : Int)
    (hcs : context.input.chapters = some cs)
    (hlast : cs.getLast? = some lc)
    (htb : (jsSplit lc.time_base "/").map parseIntJs = [some num, some den])
    (_hnum : num ≠ 0) (_hden : den ≠ 0) :
    Mapper2.getChapters context
      = .ok (Mapper2.numberChapters
          (if lc.end_time ≠ context.input.format.duration then
            cs ++ [{ id := 0, time_base := lc.time_base, start := lc.«end»,
                     start_time := lc.end_time,
                     «end» := context.input.format.duration * den / num,
                     end_time := context.input.format.duration }]
          else cs))
    ∧ ∀ xs : List Chapter, (Mapper2.numberChapters xs).map (fun c => c.number)
        = (List.range xs.length).map (fun i => some (i + 1)) := by
  constructor
  · have hcc : createChapter lc context.input.format.duration
        = { id := 0, time_base := lc.time_base, start := lc.«end»,
            start_time := lc.end_time,
            «end» := context.input.format.duration * den / num,
            end_time := context.input.format.duration } := by
      unfold createChapter
      rw [htb]
      simp only [List.get?, Option.bind, Option.getD, id_eq]
      rw [div_div_eq_mul_div]
    unfold Mapper2.getChapters
    rw [hcs]
    simp only [hlast, hcc]
  · intro xs
    rw [Mapper2.numberChapters, List.map_map, ← List.enum_map_fst xs, List.map_map]
    rfl

/-- The synthetic chapter the normalization appends in the concrete
scenario: from the last chapter's end to the 25-second container end, with
`end` 25 * 1000 / 1 = 25000 in the `1/1000` time base. -/
def synthA : Chapter :=
  { id := 0, time_base := chA2.time_base, start := Chapter.«end» chA2,
    start_time := chA2.end_time,
    «end» := ctxChapters.input.format.duration * (1000 : Int) / (1 : Int),
    end_time := ctxChapters.input.format.duration }

/-- C5 witness: the concrete two-chapter context with time base `1/1000` and
duration 25: exactly the synthetic chapter is appended and numbers are
assigned. -/
theorem chapter_normalization_witness :
    Mapper2.getChapters ctxChapters
      = .ok (Mapper2.numberChapters
          (if chA2.end_time ≠ ctxChapters.input.format.duration then
            [chA1, chA2] ++ [synthA]
          else [chA1, chA2])) :=
  (chapter_normalization ctxChapters [chA1, chA2] chA2 1 1000 rfl rfl (by decide)
    (by decide) (by decide)).1

/-- C1: in the single-mapping builder, an input stream for which no
stream-level option matched (hence also not excluded) produces exactly the
default output stream with params `-map {iid}` and `-c:{oid} copy`; and on
scenario A — the single mapping `m1` with output `{fn}` and format `mkv`
applied to the two-stream `film.mp4` — the whole builder yields one
`film.mkv` whose two streams carry the resolved params `-map 0:0`/`-c:0 copy`
and `-map 0:1`/`-c:1 copy`. -/
theorem single_mapping_default_copy :
    (∀ (je : JsEval) (context : SnippetContext) (stream : InputStream)
        (tasks : List MappingOption) (currentId : Nat),
        relOptions je context tasks stream = [] →
        OutputStreamBuilder.build je context stream tasks currentId
          = [⟨currentId, stream, ["-map {iid}", "-c:{oid} copy"]⟩])
    ∧ OutputMediaBuilder.build jsEvalDefault profileA inputA = .ok [outputA] := by
  constructor
  · intro je context stream tasks currentId h
    simp [OutputStreamBuilder.build, h]
  · rfl

/-- C1 witness: the general part applied at the scenario's audio stream with
an empty task list (no option can match). -/
theorem single_mapping_default_copy_witness :
    OutputStreamBuilder.build jsEvalDefault ctxA streamA1 [] 1
      = [⟨1, streamA1, ["-map {iid}", "-c:{oid} copy"]⟩] :=
  single_mapping_default_copy.1 jsEvalDefault ctxA streamA1 [] 1 rfl

/-! ### Scheduler invariants -/

/-- The structural invariant of reachable scheduler states: the queue is
strictly increasing, every queued id is newer than the current task and
within the issued range, and every mapped task newer than the current one is
still queued. -/
def Scheduler.Inv (s : SchedulerState) : Prop :=
  s.queue.Pairwise (· < ·)
  ∧ (∀ id ∈ s.queue, s.currentTask < id)
  ∧ (∀ id ∈ s.queue, id ≤ s.taskCount)
  ∧ s.currentTask ≤ s.taskCount
  ∧ (∀ kv ∈ s.tasks, s.currentTask < kv.1 → kv.1 ∈ s.queue)

/-- Every reachable scheduler state satisfies the invariant. -/
theorem Scheduler.reachable_inv {s : SchedulerState} (h : Scheduler.Reachable s) :
    Scheduler.Inv s := by
  induction h with
  | init =>
      refine ⟨List.Pairwise.nil, ?_, ?_, Nat.le_refl 0, ?_⟩ <;> intro id hid <;> simp at hid
  | step e h ih =>
      obtain ⟨h1, h2, h3, h4, h5⟩ := ih
      rename_i s0
      cases e with
      | schedule file =>
          show Scheduler.Inv
            { taskCount := s0.taskCount + 1,
              tasks := s0.tasks ++ [(s0.taskCount + 1, file)],
              currentTask := s0.currentTask,
              queue := s0.queue ++ [s0.taskCount + 1],
              running := s0.running }
          refine ⟨?_, ?_, ?_, ?_, ?_⟩
          · rw [List.pairwise_append]
            refine ⟨h1, List.pairwise_singleton _ _, ?_⟩
            intro a ha b hb
            simp at hb
            subst hb
            exact Nat.lt_succ_of_le (h3 a ha)
          · intro id hid
            rcases List.mem_append.mp hid with hmem | hmem
            · exact h2 id hmem
            · simp at hmem
              subst hmem
              exact Nat.lt_succ_of_le h4
          · intro id hid
            rcases List.mem_append.mp hid with hmem | hmem
            · exact Nat.le_succ_of_le (h3 id hmem)
            · simp at hmem
              subst hmem
              exact Nat.le_refl _
          · exact Nat.le_succ_of_le h4
          · intro kv hkv hlt
            rcases List.mem_append.mp hkv with hmem | hmem
            · exact List.mem_append_left _ (h5 kv hmem hlt)
            · simp at hmem
              subst hmem
              exact List.mem_append_right _ (by simp)
      | start =>
          cases hrun : s0.running with
          | some r => simpa [Scheduler.step, hrun] using ⟨h1, h2, h3, h4, h5⟩
          | none =>
              cases hq : s0.queue with
              | nil => simpa [Scheduler.step, hrun, hq] using ⟨h1, h2, h3, h4, h5⟩
              | cons q0 rest =>
                  rw [hq] at h1 h2 h3
                  simp only [Scheduler.step, hrun, hq]
                  refine ⟨h1.of_cons, ?_, ?_, h3 q0 (List.mem_cons_self _ _), ?_⟩
                  · intro id hid
                    exact List.rel_of_pairwise_cons h1 hid
                  · intro id hid
                    exact h3 id (List.mem_cons_of_mem _ hid)
                  · intro kv hkv hlt
                    have hq0 : s0.currentTask < kv.1 :=
                      Nat.lt_trans (h2 q0 (List.mem_cons_self _ _)) hlt
                    have : kv.1 ∈ q0 :: rest := hq ▸ h5 kv hkv hq0
                    rcases List.mem_cons.mp this with heq | hmem
                    · exact absurd (heq ▸ hlt) (Nat.lt_irrefl _)
                    · exact hmem
      | finish =>
          cases hrun : s0.running with
          | none => simpa [Scheduler.step, hrun] using ⟨h1, h2, h3, h4, h5⟩
          | some r =>
              simp only [Scheduler.step, hrun]
              refine ⟨h1, h2, h3, h4, ?_⟩
              intro kv hkv hlt
              exact h5 kv (List.mem_of_mem_filter hkv) hlt
      | fail =>
          cases hrun : s0.running with
          | none => simpa [Scheduler.step, hrun] using ⟨h1, h2, h3, h4, h5⟩
          | some r =>
              simp only [Scheduler.step, hrun]
              refine ⟨h1, h2, h3, h4, ?_⟩
              intro kv hkv hlt
              exact h5 kv (List.mem_of_mem_filter hkv) hlt
      | cancel file =>
          cases hfind : Scheduler.findId s0 file with
          | none => simpa [Scheduler.step, hfind] using ⟨h1, h2, h3, h4, h5⟩
          | some id =>
              by_cases hlt : s0.currentTask < id
              · simp only [Scheduler.step, hfind, if_pos hlt]
                refine ⟨List.Pairwise.sublist (List.erase_sublist _ _) h1, ?_, ?_, h4, ?_⟩
                · intro i hi
                  exact h2 i (List.mem_of_mem_erase hi)
                · intro i hi
                  exact h3 i (List.mem_of_mem_erase hi)
                · intro kv hkv hklt
                  have hne : kv.1 ≠ id := by
                    have := List.of_mem_filter hkv
                    simpa using this
                  exact (List.mem_erase_of_ne hne).mpr
                    (h5 kv (List.mem_of_mem_filter hkv) hklt)
              · simpa [Scheduler.step, hfind, if_neg hlt] using ⟨h1, h2, h3, h4, h5⟩

/-- C3: on every reachable scheduler state, `cancel(file)` removes the
located task from the queue precisely when its id is strictly greater than
the current task's id — the id is then actually queued and exactly it is
erased — and in every other case (id at most the current task's, covering a
running task, or no id found, covering finished or never-scheduled files) the
whole state, in particular the queue, is left unchanged. -/
theorem scheduler_cancel_correct (s : SchedulerState) (hs : Scheduler.Reachable s)
    (file : String) :
    (∀ id, Scheduler.findId s file = some id → s.currentTask < id →
        id ∈ s.queue
        ∧ (Scheduler.step s (.cancel file)).queue = s.queue.erase id)
    ∧ (∀ id, Scheduler.findId s file = some id → id ≤ s.currentTask →
        Scheduler.step s (.cancel file) = s)
    ∧ (Scheduler.findId s file = none → Scheduler.step s (.cancel file) = s) := by
  obtain ⟨_, _, _, _, h5⟩ := Scheduler.reachable_inv hs
  refine ⟨?_, ?_, ?_⟩
  · intro id hfind hlt
    have hmem : (id, file) ∈ s.tasks := by
      unfold Scheduler.findId at hfind
      obtain ⟨kv, hkv, hmap⟩ := Option.map_eq_some'.mp hfind
      have h2' : kv.2 = file := by simpa using List.find?_some hkv
      have : kv = (id, file) := by
        cases kv
        simp at hmap h2'
        simp [hmap, h2']
      exact this ▸ List.mem_of_find?_eq_some hkv
    refine ⟨h5 (id, file) hmem hlt, ?_⟩
    simp [Scheduler.step, hfind, if_pos hlt]
  · intro id hfind hle
    simp [Scheduler.step, hfind, if_neg (Nat.not_lt.mpr hle)]
  · intro hfind
    simp [Scheduler.step, hfind]

/-- The state after scheduling files `a` and `b` and starting the first
task: task 1 is running, task 2 is queued. -/
def schedulerWitnessState : SchedulerState :=
  Scheduler.step (Scheduler.step (Scheduler.step {} (.schedule "a")) (.schedule "b")) .start

/-- C3 witness: with task 1 running and task 2 queued, cancelling `b`
(id 2 > 1) removes exactly task 2 from the queue. -/
theorem scheduler_cancel_correct_witness :
    2 ∈ schedulerWitnessState.queue
    ∧ (Scheduler.step schedulerWitnessState (.cancel "b")).queue
        = schedulerWitnessState.queue.erase 2 :=
  (scheduler_cancel_correct schedulerWitnessState
    (Scheduler.Reachable.step .start (Scheduler.Reachable.step (.schedule "b")
      (Scheduler.Reachable.step (.schedule "a") Scheduler.Reachable.init))) "b").1
    2 rfl (by decide)

/-! ### Plan shape: id and stream-index contiguity -/

/-- Reduction of bind on a successful `Except`. -/
theorem except_bind_ok (a : α) (f : α → Except ε β) :
    (Except.ok a >>= f) = f a :=
  rfl

/-- Reduction of bind on a failed `Except`. -/
theorem except_bind_error (e : ε) (f : α → Except ε β) :
    ((Except.error e : Except ε α) >>= f) = Except.error e :=
  rfl

/-- Step-1 ranges concatenate. -/
theorem range'_append_one (a m k : Nat) :
    List.range' a m ++ List.range' (a + m) k = List.range' a (m + k) := by
  simp [Nat.add_comm]

/-- Destructure a successful bind. -/
theorem bind_ok_destruct {ε α β : Type} {x : Except ε α} {f : α → Except ε β} {b : β}
    (h : (x >>= f) = .ok b) : ∃ a, x = .ok a ∧ f a = .ok b := by
  cases x with
  | error e => rw [except_bind_error] at h; cases h
  | ok a => rw [except_bind_ok] at h; exact ⟨a, rfl, h⟩

/-- Appending the next index extends a step-1 range. -/
theorem range'_snoc (a m : Nat) :
    List.range' a m ++ [a + m] = List.range' a (m + 1) := by
  have h := range'_append_one a m 1
  simpa [List.range'_one] using h

/-- The contiguity property of a freshly built slice of the plan: ids form
the range starting at `n`, and each output's stream indices form the range
starting at 0. -/
def planOk (outs : List OutputMedia) (n : Nat) : Prop :=
  outs.map (fun o => o.id) = List.range' n outs.length
  ∧ ∀ o ∈ outs, o.streams.map (fun os => os.index) = List.range' 0 o.streams.length

/-- The empty slice is contiguous anywhere. -/
theorem planOk_nil (n : Nat) : planOk [] n := by
  refine ⟨rfl, ?_⟩
  intro o ho
  simp at ho

/-- Contiguous slices concatenate. -/
theorem planOk_append {xs ys : List OutputMedia} {n : Nat}
    (hx : planOk xs n) (hy : planOk ys (n + xs.length)) : planOk (xs ++ ys) n := by
  refine ⟨?_, ?_⟩
  · rw [List.map_append, hx.1, hy.1, List.length_append, range'_append_one]
  · intro o ho
    rcases List.mem_append.mp ho with h | h
    · exact hx.2 o h
    · exact hy.2 o h

/-- A threaded fallible fan-out of contiguous slices is contiguous. -/
theorem threadMapME_planOk {α : Type} {f : α → Nat → Except String (List OutputMedia)}
    (hf : ∀ a k out, f a k = .ok out → planOk out k) :
    ∀ (as : List α) (n : Nat) (outs : List OutputMedia),
      threadMapME f as n = .ok outs → planOk outs n := by
  intro as
  induction as with
  | nil =>
      intro n outs h
      simp only [threadMapME, pure] at h
      cases h
      exact planOk_nil n
  | cons a as ih =>
      intro n outs h
      simp only [threadMapME] at h
      cases hfa : f a n with
      | error e => rw [hfa, except_bind_error] at h; cases h
      | ok out =>
          rw [hfa, except_bind_ok] at h
          cases hrest : threadMapME f as (n + out.length) with
          | error e => rw [hrest, except_bind_error] at h; cases h
          | ok rest =>
              rw [hrest, except_bind_ok] at h
              simp only [pure] at h
              cases h
              exact planOk_append (hf a n out hfa) (ih _ rest hrest)

/-- A successful fallible map has the input's length. -/
theorem mapME_ok_length {α β ε : Type} {f : α → Except ε β} :
    ∀ {l : List α} {l' : List β}, mapME f l = .ok l' → l'.length = l.length := by
  intro l
  induction l with
  | nil => intro l' h; simp only [mapME, pure] at h; cases h; rfl
  | cons a as ih =>
      intro l' h
      simp only [mapME] at h
      cases hfa : f a with
      | error e => rw [hfa, except_bind_error] at h; cases h
      | ok b =>
          rw [hfa, except_bind_ok] at h
          cases hrest : mapME f as with
          | error e => rw [hrest, except_bind_error] at h; cases h
          | ok bs =>
              rw [hrest, except_bind_ok] at h
              simp only [pure] at h
              cases h
              simp [ih hrest]

/-- A successful fallible map preserves a projected view when each element
does. -/
theorem mapME_ok_map {α β ε γ : Type} {f : α → Except ε β} {g : α → γ} {g' : β → γ}
    (hfg : ∀ a b, f a = .ok b → g' b = g a) :
    ∀ {l : List α} {l' : List β}, mapME f l = .ok l' → l'.map g' = l.map g := by
  intro l
  induction l with
  | nil => intro l' h; simp only [mapME, pure] at h; cases h; rfl
  | cons a as ih =>
      intro l' h
      simp only [mapME] at h
      cases hfa : f a with
      | error e => rw [hfa, except_bind_error] at h; cases h
      | ok b =>
          rw [hfa, except_bind_ok] at h
          cases hrest : mapME f as with
          | error e => rw [hrest, except_bind_error] at h; cases h
          | ok bs =>
              rw [hrest, except_bind_ok] at h
              simp only [pure] at h
              cases h
              simp [hfg a b hfa, ih hrest]

/-- A successful fallible map transports a pointwise property. -/
theorem mapME_ok_forall {α β ε : Type} {f : α → Except ε β} {P : α → Prop} {Q : β → Prop}
    (hfq : ∀ a b, f a = .ok b → P a → Q b) :
    ∀ {l : List α} {l' : List β}, mapME f l = .ok l' → (∀ a ∈ l, P a) → ∀ b ∈ l', Q b := by
  intro l
  induction l with
  | nil => intro l' h _; simp only [mapME, pure] at h; cases h; intro b hb; simp at hb
  | cons a as ih =>
      intro l' h hP
      simp only [mapME] at h
      cases hfa : f a with
      | error e => rw [hfa, except_bind_error] at h; cases h
      | ok b =>
          rw [hfa, except_bind_ok] at h
          cases hrest : mapME f as with
          | error e => rw [hrest, except_bind_error] at h; cases h
          | ok bs =>
              rw [hrest, except_bind_ok] at h
              simp only [pure] at h
              cases h
              intro b' hb'
              rcases List.mem_cons.mp hb' with heq | hmem
              · exact heq ▸ hfq a b hfa (hP a (List.mem_cons_self _ _))
              · exact ih hrest (fun x hx => hP x (List.mem_cons_of_mem _ hx)) b' hmem

/-- A resolved output stream keeps its index. -/
theorem resolveStreamParams_index {je : JsEval} {context : SnippetContext}
    {o1 : OutputMedia} {os r : OutputStream}
    (h : resolveStreamParams je context o1 os = .ok r) : r.index = os.index := by
  unfold resolveStreamParams at h
  obtain ⟨ps, _, hr⟩ := bind_ok_destruct h
  simp only [pure] at hr
  cases hr
  rfl

/-- Parameter resolution of one output keeps its id and its stream
indices. -/
theorem rop_preserves {je : JsEval} {o o' : OutputMedia} {context : SnippetContext}
    (h : resolveOutputParameters je o context = .ok o') :
    o'.id = o.id
    ∧ o'.streams.map (fun os => os.index) = o.streams.map (fun os => os.index) := by
  unfold resolveOutputParameters at h
  obtain ⟨params, hp, h⟩ := bind_ok_destruct h
  obtain ⟨streams, hs, h⟩ := bind_ok_destruct h
  simp only [pure] at h
  cases h
  exact ⟨rfl, mapME_ok_map (fun os r hr => resolveStreamParams_index hr) hs⟩

/-- The option loop of the output stream builder assigns indices
sequentially: if the accumulator's streams carry the range from `n0` and its
counter sits at the end of that range, the same holds after the loop. -/
theorem osb_loop_inv (stream : InputStream) (rel : List MappingOption) :
    ∀ (acc : List OutputStream × List String × Nat) (n0 : Nat),
      acc.1.map (fun os => os.index) = List.range' n0 acc.1.length →
      acc.2.2 = n0 + acc.1.length →
      ((rel.foldl (osbStep stream) acc).1.map (fun os => os.index)
          = List.range' n0 (rel.foldl (osbStep stream) acc).1.length)
      ∧ (rel.foldl (osbStep stream) acc).2.2
          = n0 + (rel.foldl (osbStep stream) acc).1.length := by
  induction rel with
  | nil =>
      intro acc n0 h1 h2
      exact ⟨h1, h2⟩
  | cons o os ih =>
      intro acc n0 h1 h2
      rw [List.foldl_cons]
      by_cases hm : o.params.any (fun p => containsSub p "-map") = true
      · refine ih (osbStep stream acc o) n0 ?_ ?_
        · simp only [osbStep, if_pos hm]
          rw [List.map_append, h1, List.length_append]
          simp only [List.map_cons, List.map_nil, List.length_cons, List.length_nil]
          rw [h2]
          exact range'_snoc n0 acc.1.length
        · simp only [osbStep, if_pos hm]
          simp only [List.length_append, List.length_cons, List.length_nil]
          omega
      · refine ih (osbStep stream acc o) n0 ?_ ?_
        · simp only [osbStep, if_neg hm]
          exact h1
        · simp only [osbStep, if_neg hm]
          exact h2

/-- The streams built from one input stream carry the contiguous index range
starting at the requested counter. -/
theorem osb_build_indices (je : JsEval) (context : SnippetContext) (stream : InputStream)
    (tasks : List MappingOption) (n : Nat) :
    (OutputStreamBuilder.build je context stream tasks n).map (fun os => os.index)
      = List.range' n (OutputStreamBuilder.build je context stream tasks n).length := by
  unfold OutputStreamBuilder.build
  by_cases hexc : (relOptions je context tasks stream).any (fun o => o.exclude) = true
  · simp [hexc]
  · simp only [hexc, Bool.false_eq_true, if_false, if_neg]
    by_cases hemp : (relOptions je context tasks stream).isEmpty = true
    · simp only [hemp, if_true, if_pos]
      simp [List.range'_one]
    · simp only [hemp, Bool.false_eq_true, if_false, if_neg]
      have hinv := osb_loop_inv stream (relOptions je context tasks stream)
        ([], [], n) n (by simp) (by simp)
      rw [List.map_append, hinv.1, List.length_append]
      simp only [List.map_cons, List.map_nil, List.length_cons, List.length_nil]
      rw [hinv.2]
      exact range'_snoc n _

/-- A threaded fan-out of index-contiguous stream slices is
index-contiguous. -/
theorem threadMap_indices {α : Type} {f : α → Nat → List OutputStream}
    (hf : ∀ a k, (f a k).map (fun os => os.index) = List.range' k (f a k).length) :
    ∀ (as : List α) (n : Nat),
      (threadMap f as n).map (fun os => os.index)
        = List.range' n (threadMap f as n).length := by
  intro as
  induction as with
  | nil => intro n; rfl
  | cons a as ih =>
      intro n
      simp only [threadMap]
      rw [List.map_append, hf, ih, List.length_append, range'_append_one]

/-- The single-mapping builder emits a contiguous slice: at most one output
carrying the requested id, whose streams carry the range from 0. -/
theorem single_build_planOk (je : JsEval) (mapping : Mapping) (context : SnippetContext)
    (n : Nat) (outs : List OutputMedia)
    (h : SingleMappingBuilder.build je mapping context n = .ok outs) : planOk outs n := by
  unfold SingleMappingBuilder.build at h
  by_cases hw : (!mapping.when.isEmpty && !parsePredicate je mapping.when context) = true
  · rw [if_pos hw] at h
    simp only [pure] at h
    cases h
    exact planOk_nil n
  · rw [if_neg hw] at h
    by_cases hstr : (SingleMappingBuilder.createStreams je mapping context).isEmpty = true
    · rw [if_pos hstr] at h
      simp only [pure] at h
      cases h
      exact planOk_nil n
    · rw [if_neg hstr] at h
      obtain ⟨filename, hres, h⟩ := bind_ok_destruct h
      simp only [pure] at h
      cases h
      refine ⟨by simp [List.range'_one], ?_⟩
      intro o ho
      rcases List.mem_singleton.mp ho with rfl
      show (SingleMappingBuilder.createStreams je mapping context).map (fun os => os.index)
        = List.range' 0 (SingleMappingBuilder.createStreams je mapping context).length
      exact threadMap_indices (fun s k => osb_build_indices je context s (getTasks mapping) k)
        context.input.streams 0

/-- One output of the many-mapping builder carries the requested id and a
single stream indexed 0. -/
theorem many_buildOutput_ok {je : JsEval} {mapping : Mapping} {context : SnippetContext}
    {stream : InputStream} {k : Nat} {o : OutputMedia}
    (h : ManyMappingBuilder.buildOutput je mapping context stream k = .ok o) :
    o.id = k ∧ o.streams.map (fun os => os.index) = List.range' 0 o.streams.length := by
  unfold ManyMappingBuilder.buildOutput at h
  obtain ⟨filename, hres, h⟩ := bind_ok_destruct h
  simp only [pure] at h
  cases h
  exact ⟨rfl, by simp [List.range'_one]⟩

/-- The many-mapping builder emits a contiguous slice. -/
theorem many_build_planOk (je : JsEval) (mapping : Mapping) (context : SnippetContext)
    (n : Nat) (outs : List OutputMedia)
    (h : ManyMappingBuilder.build je mapping context n = .ok outs) : planOk outs n := by
  unfold ManyMappingBuilder.build at h
  refine threadMapME_planOk ?_ _ n outs h
  intro s k out hout
  obtain ⟨o, ho, hout⟩ := bind_ok_destruct hout
  simp only [pure] at hout
  cases hout
  obtain ⟨hid, hstr⟩ := many_buildOutput_ok ho
  exact ⟨by simp [hid, List.range'_one], by
    intro o' ho'
    rcases List.mem_singleton.mp ho' with rfl
    exact hstr⟩

/-- The chapter-mapping builder emits a contiguous slice. -/
theorem chapter_build_planOk (je : JsEval) (mapping : Mapping) (context : SnippetContext)
    (n : Nat) (outs : List OutputMedia)
    (h : ChapterMappingBuilder.build je mapping context n = .ok outs) : planOk outs n := by
  unfold ChapterMappingBuilder.build at h
  obtain ⟨chapters, hch, h⟩ := bind_ok_destruct h
  refine threadMapME_planOk ?_ _ n outs h
  intro localContext k out hout
  obtain ⟨mid, hmid, hout⟩ := bind_ok_destruct hout
  have hplan := single_build_planOk je mapping localContext k mid hmid
  have hlen : out.length = mid.length := mapME_ok_length hout
  refine ⟨?_, ?_⟩
  · have hids : out.map (fun o => o.id) = mid.map (fun o => o.id) :=
      mapME_ok_map (fun a b hb => (rop_preserves hb).1) hout
    rw [hids, hplan.1, hlen]
  · refine mapME_ok_forall ?_ hout hplan.2
    intro a b hb ha
    obtain ⟨_, hstr⟩ := rop_preserves hb
    have hlen2 : b.streams.length = a.streams.length := by
      have := congrArg List.length hstr
      simpa using this
    rw [hstr, ha, hlen2]

/-- Every mapping builder emits a contiguous slice. -/
theorem buildForMapping_planOk (je : JsEval) (mapping : Mapping) (context : SnippetContext)
    (n : Nat) (outs : List OutputMedia)
    (h : buildForMapping je mapping context n = .ok outs) : planOk outs n := by
  unfold buildForMapping at h
  by_cases h1 : (!onIsSet mapping.«on» || onIsNoneStr mapping.«on») = true
  · rw [if_pos h1] at h
    exact single_build_planOk je mapping context n outs h
  · rw [if_neg h1] at h
    by_cases h2 : (mapping.«on» == OnSelector.one "chapters") = true
    · rw [if_pos h2] at h
      exact chapter_build_planOk je mapping context n outs h
    · rw [if_neg h2] at h
      exact many_build_planOk je mapping context n outs h

/-- C8: for every plan the output media builder returns — over every oracle,
profile and probed input — the output ids form the contiguous range `[0, n)`
in emission order, and within each output the stream indices form the
contiguous range `[0, m)`. -/
theorem plan_ids_contiguous (je : JsEval) (profile : Profile) (input : InputMedia)
    (outs : List OutputMedia)
    (h : OutputMediaBuilder.build je profile input = .ok outs) :
    outs.map (fun o => o.id) = List.range' 0 outs.length
    ∧ ∀ o ∈ outs, o.streams.map (fun os => os.index)
        = List.range' 0 o.streams.length := by
  unfold OutputMediaBuilder.build at h
  obtain ⟨built, hbuilt, h⟩ := bind_ok_destruct h
  obtain ⟨resolved, hres, h⟩ := bind_ok_destruct h
  have hout : outs = resolved := by
    by_cases hemp : resolved.isEmpty = true
    · rw [if_pos hemp] at h; cases h
    · rw [if_neg hemp] at h
      simp only [pure] at h
      cases h
      rfl
  subst hout
  have hplan : planOk built 0 :=
    threadMapME_planOk (fun m k out hout =>
      buildForMapping_planOk je m _ k out hout) profile.output.mappings 0 built hbuilt
  have hlen : outs.length = built.length := mapME_ok_length hres
  refine ⟨?_, ?_⟩
  · have hids : outs.map (fun o => o.id) = built.map (fun o => o.id) :=
      mapME_ok_map (fun a b hb => (rop_preserves hb).1) hres
    rw [hids, hplan.1, hlen]
  · refine mapME_ok_forall ?_ hres hplan.2
    intro a b hb ha
    obtain ⟨_, hstr⟩ := rop_preserves hb
    have hlen2 : b.streams.length = a.streams.length := by
      have := congrArg List.length hstr
      simpa using this
    rw [hstr, ha, hlen2]

/-- C8 witness: on the concrete scenario-A plan, the single output has id 0
and its two streams are indexed 0 and 1. -/
theorem plan_ids_contiguous_witness :
    ([outputA].map (fun o => o.id) = List.range' 0 [outputA].length)
    ∧ ∀ o ∈ [outputA], o.streams.map (fun os => os.index)
        = List.range' 0 o.streams.length :=
  plan_ids_contiguous jsEvalDefault profileA inputA [outputA] rfl

end FfmpegAuto
